import Mathlib

/-!
Verification of the lilazul-api backend (src/server.py).

The development shallowly embeds the parts of the program the claims are
about:

* the JSON document store over the `state` table (`get_state`, `set_state`),
  including a model of the serialization pipeline (`json.dumps` on write,
  `json.loads` on read) over an inductive JSON value type;
* the finished-books collection service (`add_finished_book`,
  `delete_finished_book`), which does read-modify-write over the single
  document stored under the key "finished_books";
* the crochet table operations (`add_crochet`, `toggle_crochet`,
  `list_crochet`).

Modelling conventions:

* Machine-level SQL is modelled at the logical level: the `state` table is a
  list of (key, value-text) rows; `INSERT .. ON CONFLICT (key) DO UPDATE`
  becomes the `upsertRow` function; `SELECT .. WHERE key = %s` with
  `fetchone` becomes `List.find?`.  The PRIMARY KEY invariant is the
  `Nodup` hypothesis of the corresponding theorems.
* JSON numbers are modelled at integer granularity (Python's arbitrary
  precision ints); IEEE floating point literals are outside the embedding.
* Python's `json.dumps` is modelled with its default settings
  (separators ", " and ": ", ensure_ascii escaping); the round trip through
  Postgres JSONB re-rendering only permutes object keys, which is invisible
  to the Python dict equality the endpoints rely on, so the stored text is
  modelled as the dumps output itself.
* `uuid4()` results are passed to the operations as explicit arguments;
  their guarantees (non-empty, globally unique) appear as hypotheses where
  a claim needs them.
-/

/-- A JSON document value (the payload of the `state.value` JSONB column).
Objects keep their key order, as Python dicts do. -/
inductive Json where
  | null
  | bool (b : Bool)
  | num (n : Int)
  | str (s : String)
  | arr (elems : List Json)
  | obj (members : List (String × Json))

/-- Character for a decimal digit (0-9). -/
def digitChar (d : Nat) : Char := Char.ofNat (48 + d)

/-- Decimal digits of a positive number, most significant first, with
explicit fuel so that the definition is structurally recursive. -/
def renderNatAux : Nat → Nat → List Char
  | 0, _ => []
  | fuel + 1, n => if n = 0 then [] else renderNatAux fuel (n / 10) ++ [digitChar (n % 10)]

/-- Decimal rendering of a natural number, most significant digit first. -/
def renderNat (n : Nat) : List Char :=
  if n = 0 then ['0'] else renderNatAux n n

/-- Decimal rendering of an integer, as Python repr of an int. -/
def renderInt : Int → List Char
  | Int.ofNat n => renderNat n
  | Int.negSucc m => '-' :: renderNat (m + 1)

/-- Lowercase hexadecimal digit character. -/
def hexChar (d : Nat) : Char :=
  if d < 10 then Char.ofNat (48 + d) else Char.ofNat (87 + d)

/-- Four lowercase hex digits of a value below 0x10000. -/
def hex4 (n : Nat) : List Char :=
  [hexChar (n / 4096 % 16), hexChar (n / 256 % 16), hexChar (n / 16 % 16), hexChar (n % 16)]

/-- The backslash-u escape of a code point, using a surrogate pair above
0xFFFF, as Python json.dumps with ensure_ascii does. -/
def uEscape (n : Nat) : List Char :=
  if n < 65536 then '\\' :: 'u' :: hex4 n
  else
    ('\\' :: 'u' :: hex4 (55296 + (n - 65536) / 1024)) ++
      ('\\' :: 'u' :: hex4 (56320 + (n - 65536) % 1024))

/-- Escape of one character inside a JSON string literal, following Python
json.dumps defaults: two-character escapes for quote, backslash and common
controls, backslash-u escapes for other controls and all non-ASCII. -/
def escChar (c : Char) : List Char :=
  if c = '"' then ['\\', '"']
  else if c = '\\' then ['\\', '\\']
  else if c = '\n' then ['\\', 'n']
  else if c = '\t' then ['\\', 't']
  else if c = '\r' then ['\\', 'r']
  else if c.toNat = 8 then ['\\', 'b']
  else if c.toNat = 12 then ['\\', 'f']
  else if c.toNat < 32 ∨ 126 < c.toNat then uEscape c.toNat
  else [c]

/-- Escape a character list (a JSON string body). -/
def escList : List Char → List Char
  | [] => []
  | c :: cs => escChar c ++ escList cs

/-- Rendering of a JSON string literal, quotes included. -/
def renderString (s : String) : List Char :=
  '"' :: escList s.data ++ ['"']

mutual

/-- Rendering of a JSON value as Python json.dumps with the default
separators (", " between items, ": " after keys). -/
def render : Json → List Char
  | Json.null => ['n', 'u', 'l', 'l']
  | Json.bool true => ['t', 'r', 'u', 'e']
  | Json.bool false => ['f', 'a', 'l', 's', 'e']
  | Json.num n => renderInt n
  | Json.str s => renderString s
  | Json.arr [] => ['[', ']']
  | Json.arr (x :: xs) => '[' :: (render x ++ renderElems xs) ++ [']']
  | Json.obj [] => [Char.ofNat 123, Char.ofNat 125]
  | Json.obj ((k, v) :: kvs) =>
      Char.ofNat 123 :: (renderString k ++ ':' :: ' ' :: render v ++ renderKVs kvs) ++
        [Char.ofNat 125]

/-- Rendering of the second and later array elements, each preceded by
comma-space. -/
def renderElems : List Json → List Char
  | [] => []
  | x :: xs => ',' :: ' ' :: render x ++ renderElems xs

/-- Rendering of the second and later object members, each preceded by
comma-space. -/
def renderKVs : List (String × Json) → List Char
  | [] => []
  | (k, v) :: kvs => ',' :: ' ' :: renderString k ++ ':' :: ' ' :: render v ++ renderKVs kvs

end

/-- JSON whitespace. -/
def isWsChar (c : Char) : Bool :=
  c = ' ' || c = '\n' || c = '\t' || c = '\r'

/-- Skip leading JSON whitespace. -/
def skipWs (s : List Char) : List Char := s.dropWhile isWsChar

/-- Value of a decimal digit character. -/
def digitVal (c : Char) : Option Nat :=
  if 48 ≤ c.toNat ∧ c.toNat ≤ 57 then some (c.toNat - 48) else none

/-- Value of a hexadecimal digit character, either case. -/
def hexVal (c : Char) : Option Nat :=
  if 48 ≤ c.toNat ∧ c.toNat ≤ 57 then some (c.toNat - 48)
  else if 97 ≤ c.toNat ∧ c.toNat ≤ 102 then some (c.toNat - 87)
  else if 65 ≤ c.toNat ∧ c.toNat ≤ 70 then some (c.toNat - 55)
  else none

/-- Value of four hex digit characters. -/
def hex4Val (c1 c2 c3 c4 : Char) : Option Nat :=
  match hexVal c1, hexVal c2, hexVal c3, hexVal c4 with
  | some v1, some v2, some v3, some v4 => some (v1 * 4096 + v2 * 256 + v3 * 16 + v4)
  | _, _, _, _ => none

/-- Inverse of the two-character escapes accepted by json.loads. -/
def unescChar (c : Char) : Option Char :=
  if c = '"' then some '"'
  else if c = '\\' then some '\\'
  else if c = '/' then some '/'
  else if c = 'n' then some '\n'
  else if c = 't' then some '\t'
  else if c = 'r' then some '\r'
  else if c = 'b' then some (Char.ofNat 8)
  else if c = 'f' then some (Char.ofNat 12)
  else none

/-- Parse the low half of a surrogate pair following a high surrogate with
value n, combining the two into one code point as json.loads does. -/
def parseLowSurrogate (n : Nat) : List Char → Option (Char × List Char)
  | '\\' :: 'u' :: d1 :: d2 :: d3 :: d4 :: rest3 =>
    match hex4Val d1 d2 d3 d4 with
    | none => none
    | some m =>
      if 56320 ≤ m ∧ m ≤ 57343 then
        some (Char.ofNat (65536 + (n - 55296) * 1024 + (m - 56320)), rest3)
      else none
  | _ => none

/-- Parse one escape sequence after the backslash: either backslash-u with
four hex digits (with surrogate-pair combination; a lone surrogate is
rejected, the Lean Char type has no value for it), or a two-character
escape. -/
def parseEscape : List Char → Option (Char × List Char)
  | 'u' :: c1 :: c2 :: c3 :: c4 :: rest2 =>
    match hex4Val c1 c2 c3 c4 with
    | none => none
    | some n =>
      if 55296 ≤ n ∧ n ≤ 56319 then parseLowSurrogate n rest2
      else if 56320 ≤ n ∧ n ≤ 57343 then none
      else some (Char.ofNat n, rest2)
  | e :: rest2 => (unescChar e).map (fun c2 => (c2, rest2))
  | [] => none

/-- Parse the body of a JSON string literal after the opening quote;
returns the decoded characters and the input after the closing quote.
The fuel argument only bounds the recursion; every step consumes input,
so fuel equal to the input length never runs out. -/
def parseStringBody : Nat → List Char → Option (List Char × List Char)
  | _, [] => none
  | 0, _ :: _ => none
  | fuel + 1, c :: rest =>
    if c = '"' then some ([], rest)
    else if c = '\\' then
      match parseEscape rest with
      | none => none
      | some (c2, rest2) => (parseStringBody fuel rest2).map (fun p => (c2 :: p.1, p.2))
    else if c.toNat < 32 then none
    else (parseStringBody fuel rest).map (fun p => (c :: p.1, p.2))

/-- Take a maximal run of decimal digits. -/
def takeDigits : List Char → List Nat × List Char
  | [] => ([], [])
  | c :: rest =>
    match digitVal c with
    | some d => ((d :: (takeDigits rest).1), (takeDigits rest).2)
    | none => ([], c :: rest)

/-- Parse a nonempty run of digits as a natural number. -/
def parseNatNum (s : List Char) : Option (Nat × List Char) :=
  if (takeDigits s).1 = [] then none
  else some ((takeDigits s).1.foldl (fun a d => a * 10 + d) 0, (takeDigits s).2)

/-- Parse an optionally negated decimal integer. -/
def parseNum : List Char → Option (Int × List Char)
  | [] => none
  | c :: t =>
    if c = '-' then (parseNatNum t).map (fun p => (-(p.1 : Int), p.2))
    else (parseNatNum (c :: t)).map (fun p => ((p.1 : Int), p.2))

/-- Expect a literal run of characters; return the rest of the input when
it is present. -/
def expectChars : List Char → List Char → Option (List Char)
  | [], s => some s
  | e :: es, c :: s => if c = e then expectChars es s else none
  | _ :: _, [] => none

mutual

/-- Fuel-indexed recursive descent parser for one JSON value, modelling
json.loads on the grammar json.dumps emits. -/
def parseValue : Nat → List Char → Option (Json × List Char)
  | 0, _ => none
  | fuel + 1, s =>
    match skipWs s with
    | [] => none
    | c :: cs =>
      if c = 'n' then
        match expectChars ['u', 'l', 'l'] cs with
        | some r => some (Json.null, r)
        | none => none
      else if c = 't' then
        match expectChars ['r', 'u', 'e'] cs with
        | some r => some (Json.bool true, r)
        | none => none
      else if c = 'f' then
        match expectChars ['a', 'l', 's', 'e'] cs with
        | some r => some (Json.bool false, r)
        | none => none
      else if c = '"' then
        (parseStringBody cs.length cs).map (fun p => (Json.str (String.mk p.1), p.2))
      else if c = '[' then
        let r1 := skipWs cs
        if r1.head? = some ']' then some (Json.arr [], r1.tail)
        else (parseElems fuel r1).map (fun p => (Json.arr p.1, p.2))
      else if c = Char.ofNat 123 then
        let r1 := skipWs cs
        if r1.head? = some (Char.ofNat 125) then some (Json.obj [], r1.tail)
        else (parseKVs fuel r1).map (fun p => (Json.obj p.1, p.2))
      else
        (parseNum (c :: cs)).map (fun p => (Json.num p.1, p.2))

/-- Parse the elements of a nonempty array after the opening bracket. -/
def parseElems : Nat → List Char → Option (List Json × List Char)
  | 0, _ => none
  | fuel + 1, s =>
    match parseValue fuel s with
    | none => none
    | some (v, r) =>
      match skipWs r with
      | c :: r2 =>
        if c = ',' then (parseElems fuel r2).map (fun p => (v :: p.1, p.2))
        else if c = ']' then some ([v], r2)
        else none
      | [] => none

/-- Parse the members of a nonempty object after the opening brace. -/
def parseKVs : Nat → List Char → Option (List (String × Json) × List Char)
  | 0, _ => none
  | fuel + 1, s =>
    match skipWs s with
    | c0 :: cs =>
      if c0 = '"' then
        match parseStringBody cs.length cs with
        | none => none
        | some (kcs, r2) =>
          match skipWs r2 with
          | c1 :: r3 =>
            if c1 = ':' then
              match parseValue fuel r3 with
              | none => none
              | some (v, r4) =>
                match skipWs r4 with
                | c2 :: r5 =>
                  if c2 = ',' then
                    (parseKVs fuel r5).map (fun p => ((String.mk kcs, v) :: p.1, p.2))
                  else if c2 = Char.ofNat 125 then some ([(String.mk kcs, v)], r5)
                  else none
                | [] => none
            else none
          | [] => none
      else none
    | [] => none

end

/-- Model of json.dumps with default settings. -/
def dumps (v : Json) : String := String.mk (render v)

/-- Model of json.loads: parse one value, allow trailing whitespace,
reject trailing garbage. -/
def loads (s : String) : Option Json :=
  match parseValue (s.data.length + 1) s.data with
  | some (v, rest) => if skipWs rest = [] then some v else none
  | none => none

/-- The `state` table: rows of key and serialized JSON value text.
The PRIMARY KEY constraint is the `Nodup` hypothesis of the theorems. -/
abbrev StateTable := List (String × String)

/-- Model of INSERT .. ON CONFLICT (key) DO UPDATE SET value: replace the
value of an existing row with this key, or append a new row. -/
def upsertRow (tbl : StateTable) (key val : String) : StateTable :=
  if tbl.any (fun p => decide (p.1 = key)) then
    tbl.map (fun p => if p.1 = key then (key, val) else p)
  else tbl ++ [(key, val)]

/-- Embedding of set_state (src/server.py lines 74-85): serialize the
document with json.dumps and upsert it under the key. -/
def set_state (tbl : StateTable) (key : String) (value : Json) : StateTable :=
  upsertRow tbl key (dumps value)

/-- Embedding of get_state (src/server.py lines 64-71): SELECT the row of
this key; if absent return the caller default, else json.loads the stored
text (a parse failure is the SerializationError case).  The returned table
is the table after the call: the code only runs a SELECT, so it is the
input table. -/
def get_state (tbl : StateTable) (key : String) (dflt : Json) :
    Except Unit Json × StateTable :=
  match tbl.find? (fun p => decide (p.1 = key)) with
  | none => (Except.ok dflt, tbl)
  | some p =>
    match loads p.2 with
    | some v => (Except.ok v, tbl)
    | none => (Except.error (), tbl)

/-- A finished-book item as stored in the document under "finished_books":
the shape written by add_finished_book from the pydantic FinishedBook model
(id optional, title, date). -/
structure FinishedBook where
  id : Option String
  title : String
  date : String
deriving DecidableEq

/-- Python str() of the result of dict.get("id"): a missing or null id
reads back as the string "None". -/
def pyStr : Option String → String
  | none => "None"
  | some s => s

/-- Python falsiness of an optional string (None or empty). -/
def pyFalsyStrOpt : Option String → Bool
  | none => true
  | some s => s == ""

/-- Embedding of add_finished_book (src/server.py lines 164-172): if the
submitted id is absent or empty assign the freshly generated uuid4 string
(passed here as freshId), then prepend the item to the stored sequence. -/
def add_finished_book (books : List FinishedBook) (payload : FinishedBook)
    (freshId : String) : List FinishedBook :=
  let item := if pyFalsyStrOpt payload.id then { payload with id := some freshId } else payload
  item :: books

/-- Embedding of delete_finished_book (src/server.py lines 175-182): filter
out the items whose str-coerced id equals the path id; if nothing was
filtered out raise 404 without writing, else write back the filtered list. -/
def delete_finished_book (books : List FinishedBook) (book_id : String) :
    Except Nat (List FinishedBook) :=
  let new_books := books.filter (fun b => pyStr b.id != book_id)
  if new_books.length = books.length then Except.error 404 else Except.ok new_books

/-- The stored sequence after a delete call: the filtered list when the
delete wrote (ok), the untouched input list when it raised 404 before the
set_state call. -/
def storedAfterDelete (books : List FinishedBook) (book_id : String) : List FinishedBook :=
  match delete_finished_book books book_id with
  | Except.ok new_books => new_books
  | Except.error _ => books

/-- The pydantic CrochetCreate payload (src/server.py lines 188-191):
title required, notes and status optional strings with defaults. -/
structure CrochetCreate where
  title : String
  notes : Option String := some ""
  status : Option String := some "wip"
deriving DecidableEq

/-- A row of the crochet table. -/
structure CrochetRow where
  id : String
  title : String
  notes : String
  status : String
deriving DecidableEq

/-- The crochet table, rows in insertion (creation) order. -/
abbrev CrochetTable := List CrochetRow

/-- Python `x or d` on an optional string: the default when None or empty. -/
def pyOrStr (o : Option String) (dflt : String) : String :=
  match o with
  | none => dflt
  | some s => if s = "" then dflt else s

/-- Embedding of add_crochet (src/server.py lines 207-217): INSERT a row
with the freshly generated uuid4 id (passed here as itemId), notes-or-empty
and status-or-wip, and return the created item. -/
def add_crochet (tbl : CrochetTable) (itemId : String) (payload : CrochetCreate) :
    CrochetTable × CrochetRow :=
  let row : CrochetRow :=
    { id := itemId, title := payload.title, notes := pyOrStr payload.notes "",
      status := pyOrStr payload.status "wip" }
  (tbl ++ [row], row)

/-- The UPDATE .. WHERE id = itemId of toggle_crochet applied to one row. -/
def updateStatusRow (itemId newStatus : String) (r : CrochetRow) : CrochetRow :=
  if r.id = itemId then { r with status := newStatus } else r

/-- Embedding of toggle_crochet (src/server.py lines 220-231): SELECT the
row by id (404 when absent), flip its status (anything other than "done"
becomes "done", "done" becomes "wip"), UPDATE the row, return the item. -/
def toggle_crochet (tbl : CrochetTable) (itemId : String) :
    Except Nat (CrochetTable × CrochetRow) :=
  match tbl.find? (fun r => decide (r.id = itemId)) with
  | none => Except.error 404
  | some row =>
    let newStatus := if row.status ≠ "done" then "done" else "wip"
    Except.ok (tbl.map (updateStatusRow itemId newStatus),
      { id := itemId, title := row.title, notes := row.notes, status := newStatus })

/-- Strict lexicographic comparison of character lists by code point. -/
def charListLtb : List Char → List Char → Bool
  | [], [] => false
  | [], _ :: _ => true
  | _ :: _, [] => false
  | a :: as, b :: bs =>
    if a.toNat < b.toNat then true
    else if b.toNat < a.toNat then false
    else charListLtb as bs

/-- Strict lexicographic comparison of strings by code point: the text
ordering ORDER BY uses (byte-wise collation). -/
def strLtb (a b : String) : Bool := charListLtb a.data b.data

/-- The descending-id row order of ORDER BY id DESC: a row comes no later
than another when its id is not lexicographically smaller. -/
def idGe (a b : CrochetRow) : Prop := strLtb a.id b.id = false

instance : DecidableRel idGe := fun a b => instDecidableEqBool (strLtb a.id b.id) false

/-- Embedding of list_crochet (src/server.py lines 198-204):
SELECT .. ORDER BY id DESC, i.e. the rows sorted by id descending. -/
def list_crochet (tbl : CrochetTable) : List CrochetRow :=
  tbl.insertionSort idGe

/-! ### Auxiliary lemmas: decimal digits and number parsing -/

/-- The head of the remaining input is not a decimal digit (so a maximal
digit munch stops exactly at the rendered number's end). -/
def noDigitHead (rest : List Char) : Prop :=
  ∀ c, rest.head? = some c → digitVal c = none

theorem noDigitHead_nil : noDigitHead [] := by
  intro c h
  simp at h

theorem noDigitHead_cons (c : Char) (t : List Char) (h : digitVal c = none) :
    noDigitHead (c :: t) := by
  intro c2 h2
  simp at h2
  rwa [h2] at h

theorem digitChar_toNat (d : Nat) (h : d < 10) : (digitChar d).toNat = 48 + d := by
  interval_cases d <;> rfl

theorem digitVal_digitChar (d : Nat) (h : d < 10) : digitVal (digitChar d) = some d := by
  interval_cases d <;> rfl

theorem digitChar_ne (d : Nat) (h : d < 10) (c : Char)
    (hc : ¬ (48 ≤ c.toNat ∧ c.toNat ≤ 57)) : digitChar d ≠ c := by
  intro he
  apply hc
  rw [← he, digitChar_toNat d h]
  omega

/-- The decimal digit list (most significant first) a number renders as. -/
def decDigits (n : Nat) : List Nat :=
  if n = 0 then [0] else (Nat.digits 10 n).reverse

theorem renderNatAux_eq (fuel n : Nat) (h : n ≤ fuel) :
    renderNatAux fuel n = (Nat.digits 10 n).reverse.map digitChar := by
  induction fuel generalizing n with
  | zero =>
    have : n = 0 := by omega
    subst this
    simp [renderNatAux]
  | succ f ih =>
    by_cases hn : n = 0
    · subst hn
      simp [renderNatAux]
    · rw [renderNatAux, if_neg hn]
      rw [Nat.digits_def' (by norm_num : (1 : ℕ) < 10) (Nat.pos_of_ne_zero hn)]
      rw [List.reverse_cons, List.map_append]
      have hdiv : n / 10 ≤ f := by
        have := Nat.div_lt_self (Nat.pos_of_ne_zero hn) (by norm_num : (1 : ℕ) < 10)
        omega
      rw [ih (n / 10) hdiv]
      rfl

theorem renderNat_eq (n : Nat) : renderNat n = (decDigits n).map digitChar := by
  by_cases hn : n = 0
  · subst hn
    rfl
  · rw [renderNat, if_neg hn, decDigits, if_neg hn, renderNatAux_eq n n (le_refl n)]

theorem decDigits_lt (n : Nat) : ∀ d ∈ decDigits n, d < 10 := by
  intro d hd
  rw [decDigits] at hd
  by_cases hn : n = 0
  · rw [if_pos hn] at hd
    simp at hd
    omega
  · rw [if_neg hn, List.mem_reverse] at hd
    exact Nat.digits_lt_base (by norm_num) hd

theorem takeDigits_append (ds : List Nat) (h : ∀ d ∈ ds, d < 10) (rest : List Char)
    (hrest : noDigitHead rest) : takeDigits (ds.map digitChar ++ rest) = (ds, rest) := by
  induction ds with
  | nil =>
    simp only [List.map_nil, List.nil_append]
    cases rest with
    | nil => rfl
    | cons c t =>
      have hc : digitVal c = none := hrest c rfl
      rw [takeDigits, hc]
  | cons d ds ih =>
    have hd : d < 10 := h d (by simp)
    simp only [List.map_cons, List.cons_append]
    rw [takeDigits, digitVal_digitChar d hd,
      ih (fun x hx => h x (by simp [hx]))]

theorem foldr_eq_ofDigits (l : List Nat) :
    l.foldr (fun d acc => acc * 10 + d) 0 = Nat.ofDigits 10 l := by
  induction l with
  | nil => rfl
  | cons d l ih =>
    rw [List.foldr_cons, ih, Nat.ofDigits_cons]
    ring

theorem foldl_decDigits (n : Nat) :
    (decDigits n).foldl (fun a d => a * 10 + d) 0 = n := by
  by_cases hn : n = 0
  · subst hn
    rfl
  · rw [decDigits, if_neg hn, List.foldl_reverse, foldr_eq_ofDigits, Nat.ofDigits_digits]

theorem parseNatNum_renderNat (n : Nat) (rest : List Char) (hrest : noDigitHead rest) :
    parseNatNum (renderNat n ++ rest) = some (n, rest) := by
  rw [renderNat_eq, parseNatNum, takeDigits_append (decDigits n) (decDigits_lt n) rest hrest]
  have hne : decDigits n ≠ [] := by
    rw [decDigits]
    by_cases hn : n = 0
    · simp [hn]
    · rw [if_neg hn]
      simp [Nat.digits_ne_nil_iff_ne_zero, hn]
  rw [if_neg hne, foldl_decDigits]

theorem decDigits_ne_nil (n : Nat) : decDigits n ≠ [] := by
  rw [decDigits]
  by_cases hn : n = 0
  · simp [hn]
  · rw [if_neg hn]
    simp [Nat.digits_ne_nil_iff_ne_zero, hn]

/-- Rendered naturals start with a digit character. -/
theorem renderNat_head (n : Nat) :
    ∃ d t, d < 10 ∧ renderNat n = digitChar d :: t := by
  rw [renderNat_eq]
  rcases hd : decDigits n with _ | ⟨d, ds⟩
  · exact absurd hd (decDigits_ne_nil n)
  · refine ⟨d, ds.map digitChar, ?_, by simp⟩
    exact decDigits_lt n d (by simp [hd])

theorem parseNum_renderInt (n : Int) (rest : List Char) (hrest : noDigitHead rest) :
    parseNum (renderInt n ++ rest) = some (n, rest) := by
  cases n with
  | ofNat m =>
    rw [renderInt]
    obtain ⟨d, t, hd, hh⟩ := renderNat_head m
    rw [hh]
    simp only [List.cons_append, parseNum]
    rw [if_neg (digitChar_ne d hd '-' (by decide))]
    rw [← List.cons_append, ← hh, parseNatNum_renderNat m rest hrest]
    rfl
  | negSucc m =>
    rw [renderInt]
    simp only [List.cons_append, parseNum, if_pos rfl]
    rw [parseNatNum_renderNat (m + 1) rest hrest]
    simp [Int.negSucc_eq]

/-! ### Auxiliary lemmas: string literal escaping round trip -/

theorem hexVal_hexChar (d : Nat) (h : d < 16) : hexVal (hexChar d) = some d := by
  interval_cases d <;> rfl

theorem hex4Val_hex4 (n : Nat) (h : n < 65536) :
    hex4Val (hexChar (n / 4096 % 16)) (hexChar (n / 256 % 16)) (hexChar (n / 16 % 16))
      (hexChar (n % 16)) = some n := by
  simp only [hex4Val, hexVal_hexChar _ (show n / 4096 % 16 < 16 by omega),
    hexVal_hexChar _ (show n / 256 % 16 < 16 by omega),
    hexVal_hexChar _ (show n / 16 % 16 < 16 by omega),
    hexVal_hexChar _ (show n % 16 < 16 by omega), Option.some.injEq]
  omega

theorem char_toNat_valid (c : Char) :
    c.toNat < 1114112 ∧ ¬(55296 ≤ c.toNat ∧ c.toNat ≤ 57343) := by
  have h := c.valid
  simp only [UInt32.isValidChar, Nat.isValidChar] at h
  have he : c.toNat = c.val.toNat := rfl
  rcases h with h | h <;> rw [he] <;> omega

theorem char_ne_of_toNat_ne (c c2 : Char) (h : c.toNat ≠ c2.toNat) : c ≠ c2 := by
  intro he
  exact h (by rw [he])

/-! ### String literal round trip -/

theorem parseStringBody_esc_step (f : Nat) (X : List Char) (c2 : Char) (X2 : List Char)
    (h : parseEscape X = some (c2, X2)) :
    parseStringBody (f + 1) ('\\' :: X) =
      (parseStringBody f X2).map (fun p => (c2 :: p.1, p.2)) := by
  rw [show parseStringBody (f + 1) ('\\' :: X) =
    (match parseEscape X with
     | none => none
     | some (c2, rest2) => (parseStringBody f rest2).map (fun p => (c2 :: p.1, p.2))) from rfl, h]

theorem parseEscape_u (a b c d : Char) (X : List Char) (n : Nat)
    (hv : hex4Val a b c d = some n) (h1 : ¬(55296 ≤ n ∧ n ≤ 56319))
    (h2 : ¬(56320 ≤ n ∧ n ≤ 57343)) :
    parseEscape ('u' :: a :: b :: c :: d :: X) = some (Char.ofNat n, X) := by
  rw [parseEscape, hv]
  simp only [if_neg h1, if_neg h2]

theorem parseEscape_surrogate (a b c d : Char) (X : List Char) (n : Nat)
    (hv : hex4Val a b c d = some n) (h1 : 55296 ≤ n ∧ n ≤ 56319) :
    parseEscape ('u' :: a :: b :: c :: d :: X) = parseLowSurrogate n X := by
  rw [parseEscape, hv]
  simp only [if_pos h1]

theorem parseLowSurrogate_eq (n : Nat) (a b c d : Char) (X : List Char) (m : Nat)
    (hv : hex4Val a b c d = some m) (hlo : 56320 ≤ m ∧ m ≤ 57343) :
    parseLowSurrogate n ('\\' :: 'u' :: a :: b :: c :: d :: X) =
      some (Char.ofNat (65536 + (n - 55296) * 1024 + (m - 56320)), X) := by
  rw [parseLowSurrogate, hv]
  simp only [if_pos hlo]

theorem parseStringBody_escList (cs : List Char) : ∀ fuel rest, cs.length < fuel →
    parseStringBody fuel (escList cs ++ '"' :: rest) = some (cs, rest) := by
  induction cs with
  | nil =>
    intro fuel rest hf
    cases fuel with
    | zero => omega
    | succ f => rfl
  | cons c cs ih =>
    intro fuel rest hf
    cases fuel with
    | zero => omega
    | succ f =>
    have hcs : cs.length < f := by
      simp only [List.length_cons] at hf
      omega
    have hIH := ih f rest hcs
    show parseStringBody (f + 1) ((escChar c ++ escList cs) ++ '"' :: rest) = _
    rw [List.append_assoc]
    set Y : List Char := escList cs ++ '"' :: rest with hY
    by_cases h1 : c = '"'
    · subst h1
      rw [show escChar '"' = ['\\', '"'] from rfl, List.cons_append, List.cons_append,
        List.nil_append, parseStringBody_esc_step f ('"' :: Y) '"' Y rfl, hIH]
      rfl
    · by_cases h2 : c = '\\'
      · subst h2
        rw [show escChar '\\' = ['\\', '\\'] from rfl, List.cons_append, List.cons_append,
          List.nil_append, parseStringBody_esc_step f ('\\' :: Y) '\\' Y rfl, hIH]
        rfl
      · by_cases h3 : c = '\n'
        · subst h3
          rw [show escChar '\n' = ['\\', 'n'] from rfl, List.cons_append, List.cons_append,
            List.nil_append, parseStringBody_esc_step f ('n' :: Y) '\n' Y rfl, hIH]
          rfl
        · by_cases h4 : c = '\t'
          · subst h4
            rw [show escChar '\t' = ['\\', 't'] from rfl, List.cons_append, List.cons_append,
              List.nil_append, parseStringBody_esc_step f ('t' :: Y) '\t' Y rfl, hIH]
            rfl
          · by_cases h5 : c = '\r'
            · subst h5
              rw [show escChar '\r' = ['\\', 'r'] from rfl, List.cons_append, List.cons_append,
                List.nil_append, parseStringBody_esc_step f ('r' :: Y) '\r' Y rfl, hIH]
              rfl
            · by_cases h6 : c.toNat = 8
              · have hc : c = Char.ofNat 8 := by rw [← Char.ofNat_toNat c, h6]
                subst hc
                rw [show escChar (Char.ofNat 8) = ['\\', 'b'] from rfl, List.cons_append,
                  List.cons_append, List.nil_append,
                  parseStringBody_esc_step f ('b' :: Y) (Char.ofNat 8) Y rfl, hIH]
                rfl
              · by_cases h7 : c.toNat = 12
                · have hc : c = Char.ofNat 12 := by rw [← Char.ofNat_toNat c, h7]
                  subst hc
                  rw [show escChar (Char.ofNat 12) = ['\\', 'f'] from rfl, List.cons_append,
                    List.cons_append, List.nil_append,
                    parseStringBody_esc_step f ('f' :: Y) (Char.ofNat 12) Y rfl, hIH]
                  rfl
                · by_cases h8 : c.toNat < 32 ∨ 126 < c.toNat
                  · rw [escChar, if_neg h1, if_neg h2, if_neg h3, if_neg h4, if_neg h5,
                      if_neg h6, if_neg h7, if_pos h8]
                    have hval := char_toNat_valid c
                    by_cases hlt : c.toNat < 65536
                    · rw [uEscape, if_pos hlt, hex4]
                      simp only [List.cons_append, List.nil_append]
                      rw [parseStringBody_esc_step f _ (Char.ofNat c.toNat) Y
                        (parseEscape_u _ _ _ _ Y c.toNat (hex4Val_hex4 c.toNat hlt)
                          (by omega) (by omega)),
                        hIH, Char.ofNat_toNat]
                      rfl
                    · rw [uEscape, if_neg hlt, hex4, hex4]
                      simp only [List.cons_append, List.nil_append, List.append_assoc]
                      rw [parseStringBody_esc_step f _
                        (Char.ofNat (65536 + (55296 + (c.toNat - 65536) / 1024 - 55296) * 1024 +
                          (56320 + (c.toNat - 65536) % 1024 - 56320))) Y
                        (by
                          rw [parseEscape_surrogate _ _ _ _ _ (55296 + (c.toNat - 65536) / 1024)
                            (hex4Val_hex4 _ (by omega)) (by omega)]
                          exact parseLowSurrogate_eq _ _ _ _ _ Y
                            (56320 + (c.toNat - 65536) % 1024)
                            (hex4Val_hex4 _ (by omega)) (by omega)),
                        hIH]
                      have he : 65536 + (55296 + (c.toNat - 65536) / 1024 - 55296) * 1024 +
                          (56320 + (c.toNat - 65536) % 1024 - 56320) = c.toNat := by omega
                      rw [he, Char.ofNat_toNat]
                      rfl
                  · rw [escChar, if_neg h1, if_neg h2, if_neg h3, if_neg h4, if_neg h5,
                      if_neg h6, if_neg h7, if_neg h8]
                    simp only [List.cons_append, List.nil_append]
                    rw [parseStringBody, if_neg h1, if_neg h2,
                      if_neg (show ¬ c.toNat < 32 by omega), hIH]
                    rfl

/-! ### Size measures and parser helper lemmas -/

mutual

def jsize : Json → Nat
  | Json.null => 1
  | Json.bool _ => 1
  | Json.num _ => 1
  | Json.str _ => 1
  | Json.arr [] => 1
  | Json.arr (x :: xs) => 1 + lsize (x :: xs)
  | Json.obj [] => 1
  | Json.obj ((k, v) :: kvs) => 1 + psize ((k, v) :: kvs)

def lsize : List Json → Nat
  | [] => 0
  | x :: xs => 1 + jsize x + lsize xs

def psize : List (String × Json) → Nat
  | [] => 0
  | (_, v) :: kvs => 1 + jsize v + psize kvs

end

theorem jsize_pos (v : Json) : 1 ≤ jsize v := by
  cases v with
  | null => simp [jsize]
  | bool b => simp [jsize]
  | num n => simp [jsize]
  | str s => simp [jsize]
  | arr es => cases es <;> simp [jsize]
  | obj ms =>
    cases ms with
    | nil => simp [jsize]
    | cons kv kvs =>
      cases kv
      simp [jsize]

theorem skipWs_cons_not_ws (c : Char) (t : List Char) (h : isWsChar c = false) :
    skipWs (c :: t) = c :: t := by
  simp [skipWs, List.dropWhile_cons, h]

theorem skipWs_space (t : List Char) : skipWs (' ' :: t) = skipWs t := rfl

theorem isWsChar_false_of_toNat (c : Char)
    (h : c.toNat ≠ 32 ∧ c.toNat ≠ 10 ∧ c.toNat ≠ 9 ∧ c.toNat ≠ 13) : isWsChar c = false := by
  have h1 : c ≠ ' ' := char_ne_of_toNat_ne c ' ' (by change c.toNat ≠ 32; omega)
  have h2 : c ≠ '\n' := char_ne_of_toNat_ne c '\n' (by change c.toNat ≠ 10; omega)
  have h3 : c ≠ '\t' := char_ne_of_toNat_ne c '\t' (by change c.toNat ≠ 9; omega)
  have h4 : c ≠ '\r' := char_ne_of_toNat_ne c '\r' (by change c.toNat ≠ 13; omega)
  simp [isWsChar, h1, h2, h3, h4]

/-- The first character a rendered value can start with: never whitespace,
never a closing bracket or closing brace. -/
theorem render_head (v : Json) :
    ∃ c t, render v = c :: t ∧ isWsChar c = false ∧ c.toNat ≠ 93 ∧ c.toNat ≠ 125 := by
  cases v with
  | null =>
    refine ⟨'n', _, rfl, ?_, ?_, ?_⟩ <;> decide
  | bool b =>
    cases b with
    | true => refine ⟨'t', _, rfl, ?_, ?_, ?_⟩ <;> decide
    | false => refine ⟨'f', _, rfl, ?_, ?_, ?_⟩ <;> decide
  | num n =>
    cases n with
    | ofNat m =>
      obtain ⟨d, t, hd, hh⟩ := renderNat_head m
      refine ⟨digitChar d, t, ?_, ?_, ?_, ?_⟩
      · show renderInt (Int.ofNat m) = _
        rw [renderInt, hh]
      · exact isWsChar_false_of_toNat _ (by rw [digitChar_toNat d hd]; omega)
      · rw [digitChar_toNat d hd]; omega
      · rw [digitChar_toNat d hd]; omega
    | negSucc m =>
      refine ⟨'-', _, rfl, ?_, ?_, ?_⟩ <;> decide
  | str s =>
    refine ⟨'"', _, rfl, ?_, ?_, ?_⟩ <;> decide
  | arr es =>
    cases es with
    | nil => refine ⟨'[', _, rfl, ?_, ?_, ?_⟩ <;> decide
    | cons x xs => refine ⟨'[', _, rfl, ?_, ?_, ?_⟩ <;> decide
  | obj ms =>
    cases ms with
    | nil => refine ⟨Char.ofNat 123, _, rfl, ?_, ?_, ?_⟩ <;> decide
    | cons kv kvs =>
      cases kv
      refine ⟨Char.ofNat 123, _, rfl, ?_, ?_, ?_⟩ <;> decide

theorem skipWs_render (v : Json) (rest : List Char) :
    skipWs (render v ++ rest) = render v ++ rest := by
  obtain ⟨c, t, hct, hws, _, _⟩ := render_head v
  rw [hct, List.cons_append, skipWs_cons_not_ws c _ hws]

theorem escList_length_ge (cs : List Char) : cs.length ≤ (escList cs).length := by
  induction cs with
  | nil => simp [escList]
  | cons c cs ih =>
    rw [escList, List.length_append, List.length_cons]
    have : 1 ≤ (escChar c).length := by
      rw [escChar]
      split
      · simp
      · split
        · simp
        · split
          · simp
          · split
            · simp
            · split
              · simp
              · split
                · simp
                · split
                  · simp
                  · split
                    · rw [uEscape]
                      split
                      · simp [hex4]
                      · simp [hex4]
                    · simp
    omega

theorem noDigitHead_renderElems (xs : List Json) (rest : List Char) :
    noDigitHead (renderElems xs ++ ']' :: rest) := by
  cases xs with
  | nil => exact noDigitHead_cons ']' rest (by decide)
  | cons y ys =>
    rw [renderElems]
    exact noDigitHead_cons ',' _ (by decide)

theorem noDigitHead_renderKVs (kvs : List (String × Json)) (rest : List Char) :
    noDigitHead (renderKVs kvs ++ Char.ofNat 125 :: rest) := by
  cases kvs with
  | nil => exact noDigitHead_cons (Char.ofNat 125) rest (by decide)
  | cons kv kvs2 =>
    cases kv
    rw [renderKVs]
    exact noDigitHead_cons ',' _ (by decide)

theorem parseValue_ws (fuel : Nat) (t : List Char) :
    parseValue fuel (' ' :: t) = parseValue fuel t := by
  cases fuel with
  | zero => rfl
  | succ f => rw [parseValue, parseValue, skipWs_space]

theorem parseElems_ws (fuel : Nat) (t : List Char) :
    parseElems fuel (' ' :: t) = parseElems fuel t := by
  cases fuel with
  | zero => rfl
  | succ f => rw [parseElems, parseElems, parseValue_ws]

theorem parseKVs_ws (fuel : Nat) (t : List Char) :
    parseKVs fuel (' ' :: t) = parseKVs fuel t := by
  cases fuel with
  | zero => rfl
  | succ f => rw [parseKVs, parseKVs, skipWs_space]

/-! ### Parsing inverts rendering -/

theorem parseValue_numhead (f : Nat) (c : Char) (cs : List Char)
    (h : 48 ≤ c.toNat ∧ c.toNat ≤ 57 ∨ c.toNat = 45) (hws : isWsChar c = false) :
    parseValue (f + 1) (c :: cs) = (parseNum (c :: cs)).map (fun p => (Json.num p.1, p.2)) := by
  have h1 : ¬ (c = 'n') := char_ne_of_toNat_ne c 'n' (by change c.toNat ≠ 110; omega)
  have h2 : ¬ (c = 't') := char_ne_of_toNat_ne c 't' (by change c.toNat ≠ 116; omega)
  have h3 : ¬ (c = 'f') := char_ne_of_toNat_ne c 'f' (by change c.toNat ≠ 102; omega)
  have h4 : ¬ (c = '"') := char_ne_of_toNat_ne c '"' (by change c.toNat ≠ 34; omega)
  have h5 : ¬ (c = '[') := char_ne_of_toNat_ne c '[' (by change c.toNat ≠ 91; omega)
  have h6 : ¬ (c = Char.ofNat 123) :=
    char_ne_of_toNat_ne c (Char.ofNat 123) (by change c.toNat ≠ 123; omega)
  rw [parseValue, skipWs_cons_not_ws c cs hws]
  simp only [if_neg h1, if_neg h2, if_neg h3, if_neg h4, if_neg h5, if_neg h6]

theorem parseElems_cons (f : Nat) (s : List Char) (v : Json) (r : List Char)
    (h : parseValue f s = some (v, r)) :
    parseElems (f + 1) s =
      (match skipWs r with
       | c :: r2 =>
         if c = ',' then (parseElems f r2).map (fun p => (v :: p.1, p.2))
         else if c = ']' then some ([v], r2)
         else none
       | [] => none) := by
  rw [parseElems, h]
  try rfl

theorem parseKVs_step (f : Nat) (X : List Char) :
    parseKVs (f + 1) ('"' :: X) =
      (match parseStringBody X.length X with
       | none => none
       | some (kcs, r2) =>
         match skipWs r2 with
         | c1 :: r3 =>
           if c1 = ':' then
             match parseValue f r3 with
             | none => none
             | some (v, r4) =>
               match skipWs r4 with
               | c2 :: r5 =>
                 if c2 = ',' then
                   (parseKVs f r5).map (fun p => ((String.mk kcs, v) :: p.1, p.2))
                 else if c2 = Char.ofNat 125 then some ([(String.mk kcs, v)], r5)
                 else none
               | [] => none
           else none
         | [] => none) := rfl

theorem parseKVs_cons (f : Nat) (X kcs T : List Char) (v : Json) (r4 : List Char)
    (h1 : parseStringBody X.length X = some (kcs, ':' :: ' ' :: T))
    (h2 : parseValue f T = some (v, r4)) :
    parseKVs (f + 1) ('"' :: X) =
      (match skipWs r4 with
       | c2 :: r5 =>
         if c2 = ',' then (parseKVs f r5).map (fun p => ((String.mk kcs, v) :: p.1, p.2))
         else if c2 = Char.ofNat 125 then some ([(String.mk kcs, v)], r5)
         else none
       | [] => none) := by
  rw [parseKVs_step f X, h1]
  show (match parseValue f (' ' :: T) with
        | none => none
        | some (v, r4) =>
          match skipWs r4 with
          | c2 :: r5 =>
            if c2 = ',' then
              (parseKVs f r5).map
                (fun (p : List (String × Json) × List Char) => ((String.mk kcs, v) :: p.1, p.2))
            else if c2 = Char.ofNat 125 then some ([(String.mk kcs, v)], r5)
            else none
          | [] => none) =
      (match skipWs r4 with
       | c2 :: r5 =>
         if c2 = ',' then
           (parseKVs f r5).map
             (fun (p : List (String × Json) × List Char) => ((String.mk kcs, v) :: p.1, p.2))
         else if c2 = Char.ofNat 125 then some ([(String.mk kcs, v)], r5)
         else none
       | [] => none)
  rw [parseValue_ws f T, h2]

theorem parse_render_strong (N : Nat) :
    (∀ v : Json, jsize v ≤ N → ∀ fuel rest, jsize v ≤ fuel → noDigitHead rest →
        parseValue fuel (render v ++ rest) = some (v, rest)) ∧
    (∀ (x : Json) (xs : List Json), lsize (x :: xs) ≤ N → ∀ fuel rest,
        lsize (x :: xs) ≤ fuel → noDigitHead rest →
        parseElems fuel (render x ++ (renderElems xs ++ ']' :: rest)) = some (x :: xs, rest)) ∧
    (∀ (k : String) (v : Json) (kvs : List (String × Json)), psize ((k, v) :: kvs) ≤ N →
        ∀ fuel rest, psize ((k, v) :: kvs) ≤ fuel → noDigitHead rest →
        parseKVs fuel
          (renderString k ++ ':' :: ' ' :: (render v ++ (renderKVs kvs ++ Char.ofNat 125 :: rest))) =
          some ((k, v) :: kvs, rest)) := by
  induction N with
  | zero =>
    refine ⟨?_, ?_, ?_⟩
    · intro v hN
      exact absurd hN (by have := jsize_pos v; omega)
    · intro x xs hN
      exact absurd hN (by rw [lsize]; omega)
    · intro k v kvs hN
      exact absurd hN (by rw [psize]; omega)
  | succ N ih =>
    obtain ⟨ihV, ihE, ihK⟩ := ih
    refine ⟨?_, ?_, ?_⟩
    · -- parseValue on a rendered value
      intro v hN fuel rest hf hrest
      cases fuel with
      | zero => exact absurd hf (by have := jsize_pos v; omega)
      | succ f =>
      cases v with
      | null => rfl
      | bool b => cases b <;> rfl
      | num n =>
        cases n with
        | ofNat m =>
          obtain ⟨d, t, hd, hh⟩ := renderNat_head m
          show parseValue (f + 1) (renderInt (Int.ofNat m) ++ rest) = _
          rw [renderInt, hh, List.cons_append,
            parseValue_numhead f (digitChar d) (t ++ rest)
              (Or.inl (by rw [digitChar_toNat d hd]; omega))
              (isWsChar_false_of_toNat _ (by rw [digitChar_toNat d hd]; omega)),
            ← List.cons_append, ← hh, ← renderInt,
            parseNum_renderInt (Int.ofNat m) rest hrest]
          rfl
        | negSucc m =>
          show parseValue (f + 1) (renderInt (Int.negSucc m) ++ rest) = _
          rw [renderInt, List.cons_append,
            parseValue_numhead f '-' (renderNat (m + 1) ++ rest) (Or.inr (by decide)) (by decide),
            show ('-' :: (renderNat (m + 1) ++ rest)) = renderInt (Int.negSucc m) ++ rest from rfl,
            parseNum_renderInt (Int.negSucc m) rest hrest]
          rfl
      | str s =>
        have hshape : render (Json.str s) ++ rest = '"' :: (escList s.data ++ '"' :: rest) := by
          show renderString s ++ rest = _
          rw [renderString]
          simp [List.append_assoc]
        rw [hshape]
        rw [show parseValue (f + 1) ('"' :: (escList s.data ++ '"' :: rest)) =
          (parseStringBody (escList s.data ++ '"' :: rest).length
            (escList s.data ++ '"' :: rest)).map
            (fun p => (Json.str (String.mk p.1), p.2)) from rfl]
        rw [parseStringBody_escList s.data _ rest
          (by
            have := escList_length_ge s.data
            simp only [List.length_append, List.length_cons]
            omega)]
        rfl
      | arr es =>
        cases es with
        | nil => rfl
        | cons x xs =>
          have hshape : render (Json.arr (x :: xs)) ++ rest =
              '[' :: (render x ++ (renderElems xs ++ ']' :: rest)) := by
            show ('[' :: (render x ++ renderElems xs) ++ [']']) ++ rest = _
            simp [List.append_assoc]
          rw [hshape]
          rw [show parseValue (f + 1) ('[' :: (render x ++ (renderElems xs ++ ']' :: rest))) =
            (if (skipWs (render x ++ (renderElems xs ++ ']' :: rest))).head? = some ']' then
              some (Json.arr [], (skipWs (render x ++ (renderElems xs ++ ']' :: rest))).tail)
             else (parseElems f (skipWs (render x ++ (renderElems xs ++ ']' :: rest)))).map
              (fun p => (Json.arr p.1, p.2))) from rfl]
          rw [skipWs_render x (renderElems xs ++ ']' :: rest)]
          obtain ⟨c, t, hct, hws, h93, h125⟩ := render_head x
          rw [if_neg (by
            rw [hct, List.cons_append]
            simp only [List.head?_cons, Option.some.injEq]
            intro he
            exact h93 (by rw [he]; rfl))]
          rw [ihE x xs (by rw [jsize] at hN; omega) f rest (by rw [jsize] at hf; omega) hrest]
          rfl
      | obj ms =>
        cases ms with
        | nil => rfl
        | cons kv kvs =>
          obtain ⟨k, v⟩ := kv
          have hshape : render (Json.obj ((k, v) :: kvs)) ++ rest =
              Char.ofNat 123 ::
                (renderString k ++ ':' :: ' ' ::
                  (render v ++ (renderKVs kvs ++ Char.ofNat 125 :: rest))) := by
            show (Char.ofNat 123 :: (renderString k ++ ':' :: ' ' :: render v ++ renderKVs kvs) ++
              [Char.ofNat 125]) ++ rest = _
            simp [List.append_assoc]
          rw [hshape]
          rw [show parseValue (f + 1) (Char.ofNat 123 ::
              (renderString k ++ ':' :: ' ' ::
                (render v ++ (renderKVs kvs ++ Char.ofNat 125 :: rest)))) =
            (if (skipWs (renderString k ++ ':' :: ' ' ::
                (render v ++ (renderKVs kvs ++ Char.ofNat 125 :: rest)))).head? =
                some (Char.ofNat 125) then
              some (Json.obj [], (skipWs (renderString k ++ ':' :: ' ' ::
                (render v ++ (renderKVs kvs ++ Char.ofNat 125 :: rest)))).tail)
             else (parseKVs f (skipWs (renderString k ++ ':' :: ' ' ::
                (render v ++ (renderKVs kvs ++ Char.ofNat 125 :: rest))))).map
              (fun p => (Json.obj p.1, p.2))) from rfl]
          have hq : renderString k ++ ':' :: ' ' ::
              (render v ++ (renderKVs kvs ++ Char.ofNat 125 :: rest)) =
              '"' :: (escList k.data ++ '"' :: ':' :: ' ' ::
                (render v ++ (renderKVs kvs ++ Char.ofNat 125 :: rest))) := by
            rw [renderString]
            simp [List.append_assoc]
          rw [hq, skipWs_cons_not_ws '"' _ (by decide)]
          rw [if_neg (by
            simp only [List.head?_cons, Option.some.injEq]
            decide)]
          rw [← hq]
          rw [ihK k v kvs (by rw [jsize] at hN; omega) f rest (by rw [jsize] at hf; omega) hrest]
          rfl
    · -- parseElems on rendered elements
      intro x xs hN fuel rest hf hrest
      cases fuel with
      | zero => exact absurd hf (by rw [lsize]; omega)
      | succ f =>
      rw [parseElems_cons f _ x (renderElems xs ++ ']' :: rest)
        (ihV x (by rw [lsize] at hN; have := jsize_pos x; omega) f
          (renderElems xs ++ ']' :: rest)
          (by rw [lsize] at hf; omega) (noDigitHead_renderElems xs rest))]
      cases xs with
      | nil => rfl
      | cons y ys =>
        have hsh : renderElems (y :: ys) ++ ']' :: rest =
            ',' :: ' ' :: (render y ++ (renderElems ys ++ ']' :: rest)) := by
          rw [renderElems]
          simp [List.append_assoc]
        rw [hsh]
        show (parseElems f (' ' :: (render y ++ (renderElems ys ++ ']' :: rest)))).map
          (fun (p : List Json × List Char) => (x :: p.1, p.2)) = _
        rw [parseElems_ws, ihE y ys (by rw [lsize] at hN; have := jsize_pos x; omega) f rest
          (by rw [lsize] at hf; have := jsize_pos x; omega) hrest]
        rfl
    · -- parseKVs on rendered members
      intro k v kvs hN fuel rest hf hrest
      cases fuel with
      | zero => exact absurd hf (by rw [psize]; omega)
      | succ f =>
      have hq : renderString k ++ ':' :: ' ' ::
          (render v ++ (renderKVs kvs ++ Char.ofNat 125 :: rest)) =
          '"' :: (escList k.data ++ '"' :: ':' :: ' ' ::
            (render v ++ (renderKVs kvs ++ Char.ofNat 125 :: rest))) := by
        rw [renderString]
        simp [List.append_assoc]
      rw [hq]
      rw [parseKVs_cons f _ k.data (render v ++ (renderKVs kvs ++ Char.ofNat 125 :: rest)) v
        (renderKVs kvs ++ Char.ofNat 125 :: rest)
        (by
          rw [parseStringBody_escList k.data _ _
            (by
              have := escList_length_ge k.data
              simp only [List.length_append, List.length_cons]
              omega)])
        (ihV v (by rw [psize] at hN; have := jsize_pos v; omega) f
          (renderKVs kvs ++ Char.ofNat 125 :: rest)
          (by rw [psize] at hf; omega) (noDigitHead_renderKVs kvs rest))]
      cases kvs with
      | nil => rfl
      | cons kv2 kvs2 =>
        obtain ⟨k2, v2⟩ := kv2
        have hsh : renderKVs ((k2, v2) :: kvs2) ++ Char.ofNat 125 :: rest =
            ',' :: ' ' :: (renderString k2 ++ ':' :: ' ' ::
              (render v2 ++ (renderKVs kvs2 ++ Char.ofNat 125 :: rest))) := by
          rw [renderKVs]
          simp [List.append_assoc]
        rw [hsh]
        show (parseKVs f (' ' :: (renderString k2 ++ ':' :: ' ' ::
          (render v2 ++ (renderKVs kvs2 ++ Char.ofNat 125 :: rest))))).map
          (fun (p : List (String × Json) × List Char) => ((String.mk k.data, v) :: p.1, p.2)) = _
        rw [parseKVs_ws, ihK k2 v2 kvs2 (by rw [psize] at hN; have := jsize_pos v; omega) f rest
          (by rw [psize] at hf; have := jsize_pos v; omega) hrest]
        rfl

/-- Parsing inverts rendering: the parser returns exactly the rendered value
and the untouched remainder, for any fuel at least the structural size and
any remainder that does not start with a digit. -/
theorem parseValue_render (v : Json) (fuel : Nat) (rest : List Char)
    (hf : jsize v ≤ fuel) (hrest : noDigitHead rest) :
    parseValue fuel (render v ++ rest) = some (v, rest) :=
  (parse_render_strong (jsize v)).1 v (le_refl _) fuel rest hf hrest

theorem renderNat_ne_nil (n : Nat) : renderNat n ≠ [] := by
  rw [renderNat_eq]
  have := decDigits_ne_nil n
  simp [this]

theorem render_length_strong (N : Nat) :
    (∀ v : Json, jsize v ≤ N → jsize v ≤ (render v).length) ∧
    (∀ xs : List Json, lsize xs ≤ N → lsize xs ≤ (renderElems xs).length) ∧
    (∀ kvs : List (String × Json), psize kvs ≤ N → psize kvs ≤ (renderKVs kvs).length) := by
  induction N with
  | zero =>
    refine ⟨?_, ?_, ?_⟩
    · intro v hN
      exact absurd hN (by have := jsize_pos v; omega)
    · intro xs hN
      cases xs with
      | nil => simp [lsize, renderElems]
      | cons x xs => exact absurd hN (by rw [lsize]; omega)
    · intro kvs hN
      cases kvs with
      | nil => simp [psize, renderKVs]
      | cons kv kvs =>
        cases kv
        exact absurd hN (by rw [psize]; omega)
  | succ N ih =>
    obtain ⟨ihV, ihE, ihK⟩ := ih
    refine ⟨?_, ?_, ?_⟩
    · intro v hN
      cases v with
      | null => simp [jsize, render]
      | bool b => cases b <;> simp [jsize, render]
      | num n =>
        have h1 : 1 ≤ (renderInt n).length := by
          cases n with
          | ofNat m =>
            rw [renderInt]
            have := renderNat_ne_nil m
            cases hr : renderNat m with
            | nil => exact absurd hr this
            | cons a t => simp [hr]
          | negSucc m => simp [renderInt]
        rw [jsize]
        exact le_trans h1 (le_of_eq rfl)
      | str s => simp [jsize, render, renderString]
      | arr es =>
        cases es with
        | nil => simp [jsize, render]
        | cons x xs =>
          rw [jsize, lsize]
          have hx : jsize x ≤ (render x).length :=
            ihV x (by rw [jsize, lsize] at hN; have := jsize_pos x; omega)
          have hxs : lsize xs ≤ (renderElems xs).length :=
            ihE xs (by rw [jsize, lsize] at hN; have := jsize_pos x; omega)
          rw [show render (Json.arr (x :: xs)) =
            '[' :: (render x ++ renderElems xs) ++ [']'] from rfl]
          simp only [List.length_append, List.length_cons, List.length_nil]
          omega
      | obj ms =>
        cases ms with
        | nil => simp [jsize, render]
        | cons kv kvs =>
          obtain ⟨k, v⟩ := kv
          rw [jsize, psize]
          have hv : jsize v ≤ (render v).length :=
            ihV v (by rw [jsize, psize] at hN; have := jsize_pos v; omega)
          have hkvs : psize kvs ≤ (renderKVs kvs).length :=
            ihK kvs (by rw [jsize, psize] at hN; have := jsize_pos v; omega)
          rw [show render (Json.obj ((k, v) :: kvs)) =
            Char.ofNat 123 :: (renderString k ++ ':' :: ' ' :: render v ++ renderKVs kvs) ++
              [Char.ofNat 125] from rfl]
          simp only [List.length_append, List.length_cons, List.length_nil]
          omega
    · intro xs hN
      cases xs with
      | nil => simp [lsize, renderElems]
      | cons x xs =>
        rw [lsize, renderElems]
        have hx : jsize x ≤ (render x).length :=
          ihV x (by rw [lsize] at hN; have := jsize_pos x; omega)
        have hxs : lsize xs ≤ (renderElems xs).length :=
          ihE xs (by rw [lsize] at hN; have := jsize_pos x; omega)
        simp only [List.length_append, List.length_cons]
        omega
    · intro kvs hN
      cases kvs with
      | nil => simp [psize, renderKVs]
      | cons kv kvs =>
        obtain ⟨k, v⟩ := kv
        rw [psize, renderKVs]
        have hv : jsize v ≤ (render v).length :=
          ihV v (by rw [psize] at hN; have := jsize_pos v; omega)
        have hkvs : psize kvs ≤ (renderKVs kvs).length :=
          ihK kvs (by rw [psize] at hN; have := jsize_pos v; omega)
        simp only [List.length_append, List.length_cons]
        omega

/-- The serialization round trip of the state store: json.loads inverts
json.dumps on every document value. -/
theorem loads_dumps (v : Json) : loads (dumps v) = some v := by
  rw [loads, dumps]
  have hdata : (String.mk (render v)).data = render v := rfl
  rw [hdata]
  have hlen : jsize v ≤ (render v).length + 1 := by
    have := (render_length_strong (jsize v)).1 v (le_refl _)
    omega
  have h := parseValue_render v ((render v).length + 1) [] hlen noDigitHead_nil
  rw [List.append_nil] at h
  rw [h]
  rfl

/-! ### State table upsert lemmas -/

theorem upsertRow_map_find (k v : String) :
    ∀ tbl : StateTable, tbl.any (fun p => decide (p.1 = k)) = true →
      (tbl.map (fun p => if p.1 = k then (k, v) else p)).find?
        (fun p => decide (p.1 = k)) = some (k, v) := by
  intro tbl
  induction tbl with
  | nil => intro h; simp at h
  | cons p t ih =>
    intro h
    by_cases hp : p.1 = k
    · simp [List.find?_cons, hp]
    · rw [List.map_cons, if_neg hp, List.find?_cons_of_neg _ (by simp [hp])]
      apply ih
      simp [List.any_cons, hp] at h
      simpa using h

theorem upsertRow_find (tbl : StateTable) (k v : String) :
    (upsertRow tbl k v).find? (fun p => decide (p.1 = k)) = some (k, v) := by
  rw [upsertRow]
  by_cases hany : tbl.any (fun p => decide (p.1 = k)) = true
  · rw [if_pos hany]
    exact upsertRow_map_find k v tbl hany
  · rw [if_neg hany, List.find?_append]
    have hnone : tbl.find? (fun p => decide (p.1 = k)) = none := by
      rw [List.find?_eq_none]
      intro x hx
      simp only [decide_eq_true_eq]
      intro hk
      exact hany (List.any_eq_true.mpr ⟨x, hx, by simp [hk]⟩)
    rw [hnone]
    simp

theorem upsertRow_keys (tbl : StateTable) (k v : String) :
    (upsertRow tbl k v).map Prod.fst =
      if tbl.any (fun p => decide (p.1 = k)) then tbl.map Prod.fst
      else tbl.map Prod.fst ++ [k] := by
  rw [upsertRow]
  by_cases hany : tbl.any (fun p => decide (p.1 = k)) = true
  · rw [if_pos hany, if_pos hany, List.map_map]
    apply List.map_congr_left
    intro p _
    by_cases hp : p.1 = k
    · simp [hp]
    · simp [hp]
  · rw [if_neg hany, if_neg hany]
    simp

theorem any_key_iff (tbl : StateTable) (k : String) :
    tbl.any (fun p => decide (p.1 = k)) = true ↔ k ∈ tbl.map Prod.fst := by
  rw [List.any_eq_true]
  constructor
  · rintro ⟨p, hp, hk⟩
    simp only [decide_eq_true_eq] at hk
    exact List.mem_map.mpr ⟨p, hp, hk⟩
  · intro hmem
    obtain ⟨p, hp, hk⟩ := List.mem_map.mp hmem
    exact ⟨p, hp, by simp [hk]⟩

/-- The document a get finds after a set of the same key: the freshly
serialized document, which parses back to the document itself. -/
theorem get_state_set_state_same (tbl : StateTable) (k : String) (v d : Json) :
    get_state (set_state tbl k v) k d = (Except.ok v, set_state tbl k v) := by
  rw [get_state, set_state, upsertRow_find tbl k (dumps v)]
  simp only [loads_dumps]

/-- A get of an absent key returns the default and leaves the table as it
found it. -/
theorem get_state_absent (tbl : StateTable) (k : String) (d : Json)
    (h : k ∉ tbl.map Prod.fst) : get_state tbl k d = (Except.ok d, tbl) := by
  rw [get_state]
  have hnone : tbl.find? (fun p => decide (p.1 = k)) = none := by
    rw [List.find?_eq_none]
    intro x hx
    simp only [decide_eq_true_eq]
    intro hk
    exact h (List.mem_map.mpr ⟨x, hx, hk⟩)
  rw [hnone]

/-! ### Crochet ordering and toggle helpers -/

theorem charListLtb_asym : ∀ as bs : List Char, charListLtb as bs = true →
    charListLtb bs as = false := by
  intro as
  induction as with
  | nil =>
    intro bs h
    cases bs with
    | nil => simp [charListLtb] at h
    | cons b bs => rfl
  | cons a as ih =>
    intro bs h
    cases bs with
    | nil => simp [charListLtb] at h
    | cons b bs =>
      rw [charListLtb] at h ⊢
      by_cases h1 : a.toNat < b.toNat
      · rw [if_neg (by omega), if_pos h1]
      · by_cases h2 : b.toNat < a.toNat
        · rw [if_neg h1, if_pos h2] at h
          exact absurd h (by simp)
        · rw [if_neg h1, if_neg h2] at h
          rw [if_neg h2, if_neg h1]
          exact ih bs h

theorem charListLtb_negtrans : ∀ as bs cs : List Char, charListLtb as bs = false →
    charListLtb bs cs = false → charListLtb as cs = false := by
  intro as
  induction as with
  | nil =>
    intro bs cs h1 h2
    cases bs with
    | nil =>
      cases cs with
      | nil => rfl
      | cons c cs => simp [charListLtb] at h2
    | cons b bs => simp [charListLtb] at h1
  | cons a as ih =>
    intro bs cs h1 h2
    cases bs with
    | nil =>
      cases cs with
      | nil => rfl
      | cons c cs => simp [charListLtb] at h2
    | cons b bs =>
      cases cs with
      | nil => rfl
      | cons c cs =>
        rw [charListLtb] at h1 h2 ⊢
        by_cases hab : a.toNat < b.toNat
        · rw [if_pos hab] at h1
          exact absurd h1 (by simp)
        · by_cases hbc : b.toNat < c.toNat
          · rw [if_pos hbc] at h2
            exact absurd h2 (by simp)
          · by_cases hac : a.toNat < c.toNat
            · exact absurd hac (by omega)
            · rw [if_neg hac]
              by_cases hca : c.toNat < a.toNat
              · rw [if_pos hca]
              · rw [if_neg hca]
                have hba : ¬ b.toNat < a.toNat := by omega
                have hcb : ¬ c.toNat < b.toNat := by omega
                rw [if_neg hab, if_neg hba] at h1
                rw [if_neg hbc, if_neg hcb] at h2
                exact ih bs cs h1 h2

instance : IsTotal CrochetRow idGe := by
  constructor
  intro a b
  by_cases h : strLtb a.id b.id = true
  · right
    exact charListLtb_asym _ _ h
  · left
    exact Bool.eq_false_iff.mpr (by simpa using h)

instance : IsTrans CrochetRow idGe := by
  constructor
  intro a b c h1 h2
  exact charListLtb_negtrans _ _ _ h1 h2

theorem updateStatusRow_id (iid st : String) (r : CrochetRow) :
    (updateStatusRow iid st r).id = r.id := by
  rw [updateStatusRow]
  split <;> rfl

theorem find?_map_updateStatus (tbl : CrochetTable) (iid st : String) (r : CrochetRow)
    (h : tbl.find? (fun x => decide (x.id = iid)) = some r) :
    (tbl.map (updateStatusRow iid st)).find? (fun x => decide (x.id = iid)) =
      some (updateStatusRow iid st r) := by
  induction tbl with
  | nil => simp at h
  | cons a t ih =>
    by_cases ha : a.id = iid
    · rw [List.find?_cons_of_pos _ (by simp [ha])] at h
      have : a = r := by injection h
      subst this
      rw [List.map_cons, List.find?_cons_of_pos _ (by simp [updateStatusRow_id, ha])]
    · rw [List.find?_cons_of_neg _ (by simp [ha])] at h
      rw [List.map_cons, List.find?_cons_of_neg _ (by simp [updateStatusRow_id, ha]), ih h]

/-! ### Claim theorems -/

/-- Claim C1, counterexample to the claim as stated: on a stored sequence
holding two items that share the id "a" (reachable, since POST accepts a
client-supplied id verbatim), DELETE /finished-books/a removes both items,
not exactly one: the remaining sequence is empty instead of having length
one. -/
theorem C1_counterexample :
    delete_finished_book
      [⟨some "a", "t1", "d1"⟩, ⟨some "a", "t2", "d2"⟩] "a" = Except.ok [] ∧
    ([] : List FinishedBook).length ≠
      ([⟨some "a", "t1", "d1"⟩, ⟨some "a", "t2", "d2"⟩] : List FinishedBook).length - 1 := by
  exact ⟨rfl, by decide⟩

/-- Claim C1 (amended): when exactly one stored item's string-coerced id
matches the path id, DELETE /finished-books removes exactly that item and
the remaining items keep their relative order; when several items share
the matching id the filter removes all of them. -/
theorem C1_delete_removes_unique_match (l1 l2 : List FinishedBook) (b : FinishedBook)
    (book_id : String) (hb : pyStr b.id = book_id)
    (h1 : ∀ x ∈ l1, pyStr x.id ≠ book_id) (h2 : ∀ x ∈ l2, pyStr x.id ≠ book_id) :
    delete_finished_book (l1 ++ b :: l2) book_id = Except.ok (l1 ++ l2) := by
  have hf : (l1 ++ b :: l2).filter (fun x => pyStr x.id != book_id) = l1 ++ l2 := by
    rw [List.filter_append, List.filter_cons]
    rw [List.filter_eq_self.mpr (fun a ha => by simpa [bne_iff_ne] using h1 a ha)]
    rw [List.filter_eq_self.mpr (fun a ha => by simpa [bne_iff_ne] using h2 a ha)]
    simp [hb]
  rw [delete_finished_book]
  simp only [hf]
  rw [if_neg (by simp only [List.length_append, List.length_cons]; omega)]

/-- Claim C1, witness: the amended theorem applied to a three-item sequence
whose middle item is the unique match. -/
theorem C1_witness :
    delete_finished_book
      [⟨some "x", "tx", "dx"⟩, ⟨some "a", "ta", "da"⟩, ⟨some "y", "ty", "dy"⟩] "a" =
      Except.ok [⟨some "x", "tx", "dx"⟩, ⟨some "y", "ty", "dy"⟩] :=
  C1_delete_removes_unique_match [⟨some "x", "tx", "dx"⟩] [⟨some "y", "ty", "dy"⟩]
    ⟨some "a", "ta", "da"⟩ "a" rfl (by decide) (by decide)

/-- Claim C2, counterexample to the claim as stated: POST with a submitted
id "a" that is already present stores the new item at index 0 with that
same id, so the new item's id is not unique among the ids already in the
sequence. -/
theorem C2_counterexample :
    (add_finished_book [⟨some "a", "t0", "d0"⟩] ⟨some "a", "t1", "d1"⟩ "u77").head? =
      some ⟨some "a", "t1", "d1"⟩ ∧
    some "a" ∈ ([⟨some "a", "t0", "d0"⟩] : List FinishedBook).map FinishedBook.id := by
  exact ⟨rfl, by decide⟩

/-- Claim C2 (amended): POST prepends one item (result length is the
previous length plus one, new item at index 0, title and date as
submitted); a fresh identifier is assigned exactly when the submitted id is
absent or empty, and the stored id is always non-empty; uniqueness among
the existing ids is guaranteed for the generated id (using uuid4's
freshness, taken as a hypothesis), while a client-supplied non-empty id is
stored verbatim and may duplicate an existing id. -/
theorem C2_add_prepends (books : List FinishedBook) (payload : FinishedBook)
    (freshId : String) (hne : freshId ≠ "") (hfresh : ∀ b ∈ books, b.id ≠ some freshId) :
    ∃ item : FinishedBook,
      add_finished_book books payload freshId = item :: books ∧
      (add_finished_book books payload freshId).length = books.length + 1 ∧
      item.title = payload.title ∧ item.date = payload.date ∧
      (∃ s, item.id = some s ∧ s ≠ "") ∧
      (pyFalsyStrOpt payload.id = true → ∀ b ∈ books, b.id ≠ item.id) := by
  by_cases hp : pyFalsyStrOpt payload.id = true
  · refine ⟨{ payload with id := some freshId }, ?_, ?_, rfl, rfl, ⟨freshId, rfl, hne⟩, ?_⟩
    · rw [add_finished_book]
      simp [hp]
    · rw [add_finished_book]
      simp
    · intro _ b hb
      simpa using hfresh b hb
  · have hp' : pyFalsyStrOpt payload.id = false := by simpa using hp
    refine ⟨payload, ?_, ?_, rfl, rfl, ?_, ?_⟩
    · rw [add_finished_book]
      simp [hp']
    · rw [add_finished_book]
      simp
    · cases hid : payload.id with
      | none => rw [hid] at hp'; exact absurd hp' (by simp [pyFalsyStrOpt])
      | some s =>
        refine ⟨s, rfl, ?_⟩
        rw [hid] at hp'
        simpa [pyFalsyStrOpt] using hp'
    · intro hcontra
      exact absurd hcontra hp

/-- Claim C2, witness: the amended theorem applied to a one-item sequence
and a payload with no id, with the generated uuid "u1". -/
theorem C2_witness :
    ∃ item : FinishedBook,
      add_finished_book [⟨some "b", "tb", "db"⟩] ⟨none, "Dune", "2024-01-01"⟩ "u1" =
        item :: [⟨some "b", "tb", "db"⟩] ∧
      (add_finished_book [⟨some "b", "tb", "db"⟩] ⟨none, "Dune", "2024-01-01"⟩ "u1").length =
        ([⟨some "b", "tb", "db"⟩] : List FinishedBook).length + 1 ∧
      item.title = "Dune" ∧ item.date = "2024-01-01" ∧
      (∃ s, item.id = some s ∧ s ≠ "") ∧
      (pyFalsyStrOpt (some "b" : Option String) = true →
        ∀ b ∈ ([⟨some "b", "tb", "db"⟩] : List FinishedBook), b.id ≠ item.id) := by
  have h := C2_add_prepends [⟨some "b", "tb", "db"⟩] ⟨none, "Dune", "2024-01-01"⟩ "u1"
    (by decide) (by decide)
  obtain ⟨item, h1, h2, h3, h4, h5, h6⟩ := h
  exact ⟨item, h1, h2, h3, h4, h5, fun _ => h6 rfl⟩

/-- Claim C3: DELETE /finished-books with an id whose string form matches
no stored item raises 404 and performs no write: the stored sequence after
the call is the input sequence itself. -/
theorem C3_delete_absent_404 (books : List FinishedBook) (book_id : String)
    (h : ∀ b ∈ books, pyStr b.id ≠ book_id) :
    delete_finished_book books book_id = Except.error 404 ∧
    storedAfterDelete books book_id = books := by
  have hf : books.filter (fun b => pyStr b.id != book_id) = books :=
    List.filter_eq_self.mpr (fun a ha => by simpa [bne_iff_ne] using h a ha)
  have hd : delete_finished_book books book_id = Except.error 404 := by
    rw [delete_finished_book]
    simp [hf]
  exact ⟨hd, by rw [storedAfterDelete, hd]⟩

/-- Claim C3, witness: deleting an unknown id from a one-item collection. -/
theorem C3_witness :
    delete_finished_book [⟨some "x", "tx", "dx"⟩] "zz" = Except.error 404 ∧
    storedAfterDelete [⟨some "x", "tx", "dx"⟩] "zz" = [⟨some "x", "tx", "dx"⟩] :=
  C3_delete_absent_404 [⟨some "x", "tx", "dx"⟩] "zz" (by decide)

/-- Claim C4: under the PRIMARY KEY invariant (no duplicate keys),
set_state keeps the invariant (at most one row per key, stated both as
Nodup of the key column and as a count bound), replaces the value when the
key exists (key set unchanged), creates the row when it does not (key
appended), the written row holds the serialized document, and two
sequential sets of the same key are observed last-write-wins by a
subsequent get. -/
theorem C4_state_upsert (tbl : StateTable) (k : String) (v1 v2 d : Json)
    (hnd : (tbl.map Prod.fst).Nodup) :
    ((set_state tbl k v1).map Prod.fst).Nodup ∧
    (∀ key : String, ((set_state tbl k v1).map Prod.fst).count key ≤ 1) ∧
    (k ∈ tbl.map Prod.fst → (set_state tbl k v1).map Prod.fst = tbl.map Prod.fst) ∧
    (k ∉ tbl.map Prod.fst → (set_state tbl k v1).map Prod.fst = tbl.map Prod.fst ++ [k]) ∧
    (set_state tbl k v1).find? (fun p => decide (p.1 = k)) = some (k, dumps v1) ∧
    (get_state (set_state (set_state tbl k v1) k v2) k d).1 = Except.ok v2 := by
  have hkeys := upsertRow_keys tbl k (dumps v1)
  have hnodup : ((set_state tbl k v1).map Prod.fst).Nodup := by
    rw [set_state, hkeys]
    by_cases hany : tbl.any (fun p => decide (p.1 = k)) = true
    · rwa [if_pos hany]
    · rw [if_neg hany]
      have hnot : k ∉ tbl.map Prod.fst := fun hmem => hany ((any_key_iff tbl k).mpr hmem)
      simp [List.nodup_append, hnd, hnot]
  refine ⟨hnodup, ?_, ?_, ?_, ?_, ?_⟩
  · exact List.nodup_iff_count_le_one.mp hnodup
  · intro hmem
    rw [set_state, hkeys, if_pos ((any_key_iff tbl k).mpr hmem)]
  · intro hnot
    rw [set_state, hkeys,
      if_neg (fun hany => hnot ((any_key_iff tbl k).mp hany))]
  · rw [set_state]
    exact upsertRow_find tbl k (dumps v1)
  · rw [get_state_set_state_same]

/-- Claim C4, witness: the upsert theorem applied to a one-row table with a
distinct key. -/
theorem C4_witness :
    (((set_state [("other", "x")] "k" (Json.num 1)).map Prod.fst).Nodup) ∧
    (∀ key : String, ((set_state [("other", "x")] "k" (Json.num 1)).map Prod.fst).count key ≤ 1) ∧
    ("k" ∈ (([("other", "x")] : StateTable).map Prod.fst) →
      (set_state [("other", "x")] "k" (Json.num 1)).map Prod.fst =
        ([("other", "x")] : StateTable).map Prod.fst) ∧
    ("k" ∉ (([("other", "x")] : StateTable).map Prod.fst) →
      (set_state [("other", "x")] "k" (Json.num 1)).map Prod.fst =
        ([("other", "x")] : StateTable).map Prod.fst ++ ["k"]) ∧
    (set_state [("other", "x")] "k" (Json.num 1)).find? (fun p => decide (p.1 = "k")) =
      some ("k", dumps (Json.num 1)) ∧
    (get_state (set_state (set_state [("other", "x")] "k" (Json.num 1)) "k" (Json.num 2))
      "k" Json.null).1 = Except.ok (Json.num 2) :=
  C4_state_upsert [("other", "x")] "k" (Json.num 1) (Json.num 2) Json.null (by decide)

/-- Claim C5: the document store round trip: for every table, key, document
and default, a get after a set of that key returns exactly the document
written (json.dumps then json.loads through the state table is the
identity). -/
theorem C5_roundtrip (tbl : StateTable) (k : String) (v d : Json) :
    (get_state (set_state tbl k v) k d).1 = Except.ok v := by
  rw [get_state_set_state_same]

/-- Claim C6: a get of a key with no row returns the caller default exactly
and performs no write: the table after the call is the input table, so the
set of stored keys is unchanged. -/
theorem C6_get_default (tbl : StateTable) (k : String) (d : Json)
    (h : k ∉ tbl.map Prod.fst) :
    get_state tbl k d = (Except.ok d, tbl) ∧
    ((get_state tbl k d).2).map Prod.fst = tbl.map Prod.fst := by
  have hg := get_state_absent tbl k d h
  exact ⟨hg, by rw [hg]⟩

/-- Claim C6, witness: a get of the key "k" on a table holding only the key
"a" returns the default document untouched. -/
theorem C6_witness :
    get_state [("a", "1")] "k" (Json.num 7) = (Except.ok (Json.num 7), [("a", "1")]) ∧
    ((get_state [("a", "1")] "k" (Json.num 7)).2).map Prod.fst =
      ([("a", "1")] : StateTable).map Prod.fst :=
  C6_get_default [("a", "1")] "k" (Json.num 7) (by decide)

/-- One application step of toggle_crochet when the row is found. -/
theorem toggle_crochet_step (tbl : CrochetTable) (iid : String) (r : CrochetRow)
    (hfind : tbl.find? (fun x => decide (x.id = iid)) = some r) :
    toggle_crochet tbl iid =
      Except.ok (tbl.map (updateStatusRow iid (if r.status ≠ "done" then "done" else "wip")),
        ⟨iid, r.title, r.notes, if r.status ≠ "done" then "done" else "wip"⟩) := by
  rw [toggle_crochet, hfind]

/-- Claim C7, counterexample to the claim as stated: a stored crochet item
whose status is the (unvalidated, reachable via POST) string "frogged"
does not return to its original status after two toggles: it ends at
"wip". -/
theorem C7_counterexample :
    toggle_crochet [⟨"i1", "t", "", "frogged"⟩] "i1" =
      Except.ok ([⟨"i1", "t", "", "done"⟩], ⟨"i1", "t", "", "done"⟩) ∧
    toggle_crochet [⟨"i1", "t", "", "done"⟩] "i1" =
      Except.ok ([⟨"i1", "t", "", "wip"⟩], ⟨"i1", "t", "", "wip"⟩) ∧
    ("wip" : String) ≠ "frogged" := by
  exact ⟨rfl, rfl, by decide⟩

/-- Claim C7 (amended): toggling twice is the identity on the status of
every stored crochet item whose status is one of the two enum values "wip"
and "done": the item returned by the second toggle carries the original
status, and the stored row (as the SELECT of the toggle endpoint finds it)
is back to the original row. -/
theorem C7_toggle_involution (tbl : CrochetTable) (iid : String) (r : CrochetRow)
    (hfind : tbl.find? (fun x => decide (x.id = iid)) = some r)
    (hs : r.status = "wip" ∨ r.status = "done") :
    ∃ tbl1 item1 tbl2 item2,
      toggle_crochet tbl iid = Except.ok (tbl1, item1) ∧
      toggle_crochet tbl1 iid = Except.ok (tbl2, item2) ∧
      item2.status = r.status ∧
      tbl2.find? (fun x => decide (x.id = iid)) = some r := by
  have hrid : r.id = iid := by
    have := List.find?_some hfind
    simpa using this
  have hfind1 := find?_map_updateStatus tbl iid
    (if r.status ≠ "done" then "done" else "wip") r hfind
  have hst : (updateStatusRow iid (if r.status ≠ "done" then "done" else "wip") r).status =
      (if r.status ≠ "done" then "done" else "wip") := by
    rw [updateStatusRow, if_pos hrid]
  have hfind2 := find?_map_updateStatus
    (tbl.map (updateStatusRow iid (if r.status ≠ "done" then "done" else "wip"))) iid
    (if (if r.status ≠ "done" then "done" else "wip") ≠ "done" then "done" else "wip")
    (updateStatusRow iid (if r.status ≠ "done" then "done" else "wip") r) hfind1
  have step1 := toggle_crochet_step tbl iid r hfind
  have step2 := toggle_crochet_step _ iid _ hfind1
  rw [hst] at step2
  refine ⟨_, _, _, _, step1, step2, ?_, ?_⟩
  · rcases hs with h | h <;> simp [h]
  · rw [hfind2]
    congr 1
    rcases hs with h | h <;> (cases r; simp_all [updateStatusRow])

/-- Claim C7, witness: double toggle on a one-row table whose row has
status "wip". -/
theorem C7_witness :
    ∃ tbl1 item1 tbl2 item2,
      toggle_crochet [⟨"i1", "t", "", "wip"⟩] "i1" = Except.ok (tbl1, item1) ∧
      toggle_crochet tbl1 "i1" = Except.ok (tbl2, item2) ∧
      item2.status = ("wip" : String) ∧
      tbl2.find? (fun x => decide (x.id = "i1")) = some ⟨"i1", "t", "", "wip"⟩ :=
  C7_toggle_involution [⟨"i1", "t", "", "wip"⟩] "i1" ⟨"i1", "t", "", "wip"⟩ rfl (Or.inl rfl)

/-- Claim C8, code evaluation at the failing input: POST /crochet with the
status "banana" stores and returns the row with status "banana", outside
the documented wip/done enum (the pydantic model annotates the field only
with the comment wip/done and performs no validation); an absent status
does default to "wip". -/
theorem C8_status_unvalidated :
    (add_crochet [] "id1" ⟨"scarf", some "", some "banana"⟩).2.status = "banana" ∧
    ¬ ((add_crochet [] "id1" ⟨"scarf", some "", some "banana"⟩).2.status = "wip" ∨
       (add_crochet [] "id1" ⟨"scarf", some "", some "banana"⟩).2.status = "done") ∧
    (add_crochet [] "id1" ⟨"scarf", some "", some "banana"⟩).1 =
      [⟨"id1", "scarf", "", "banana"⟩] ∧
    (add_crochet [] "id2" ⟨"hat", some "", none⟩).2.status = "wip" := by
  exact ⟨rfl, by decide, rfl, rfl⟩

/-- Claim C9, counterexample to the claim as stated: create an item with
uuid id "z" first and an item with uuid id "a" second (uuid4 ids are
random, so lexicographically decreasing creation sequences occur); GET
/crochet then lists the older "z" item first, not the most recently
created "a" item. -/
theorem C9_counterexample :
    (add_crochet [] "z" ⟨"first", some "", some "wip"⟩).1 = [⟨"z", "first", "", "wip"⟩] ∧
    (add_crochet [⟨"z", "first", "", "wip"⟩] "a" ⟨"second", some "", some "wip"⟩).1 =
      [⟨"z", "first", "", "wip"⟩, ⟨"a", "second", "", "wip"⟩] ∧
    (add_crochet [⟨"z", "first", "", "wip"⟩] "a" ⟨"second", some "", some "wip"⟩).2 =
      ⟨"a", "second", "", "wip"⟩ ∧
    (list_crochet [⟨"z", "first", "", "wip"⟩, ⟨"a", "second", "", "wip"⟩]).head? ≠
      some ⟨"a", "second", "", "wip"⟩ := by
  exact ⟨rfl, rfl, rfl, by decide⟩

/-- Claim C9 (amended): GET /crochet returns the stored rows ordered by id
in descending lexicographic order (ORDER BY id DESC): the listing is a
permutation of the table sorted by the descending-id relation.  Since ids
are random uuid4 strings this coincides with reverse creation order only
when ids happen to decrease lexicographically along the listing. -/
theorem C9_listing_sorted_by_id_desc (tbl : CrochetTable) :
    (list_crochet tbl).Perm tbl ∧ List.Sorted idGe (list_crochet tbl) :=
  ⟨List.perm_insertionSort idGe tbl, List.sorted_insertionSort idGe tbl⟩

/-- Claim C10: DELETE /finished-books compares ids after Python str()
coercion of both sides: an item with a missing or null id reads back as
the string "None", so a DELETE with path id "None" (given some item lacks
an id) succeeds and removes every item whose coerced id is "None" (those
lacking an id as well as those with the literal id "None"), and in general
an item is removed exactly when the two string representations are
equal. -/
theorem C10_delete_string_coercion (books : List FinishedBook)
    (h : ∃ b ∈ books, b.id = none) :
    delete_finished_book books "None" =
      Except.ok (books.filter (fun b => pyStr b.id != "None")) ∧
    (∀ b ∈ books, (b.id = none ∨ b.id = some "None") →
      b ∉ books.filter (fun b => pyStr b.id != "None")) ∧
    (∀ (b : FinishedBook) (book_id : String),
      (pyStr b.id != book_id) = false ↔ pyStr b.id = book_id) := by
  obtain ⟨b0, hb0, hid0⟩ := h
  refine ⟨?_, ?_, ?_⟩
  · rw [delete_finished_book]
    rw [if_neg ?_]
    have hlt : (books.filter (fun b => pyStr b.id != "None")).length < books.length := by
      apply List.length_filter_lt_length_iff_exists.mpr
      exact ⟨b0, hb0, by simp [hid0, pyStr]⟩
    omega
  · intro b _ hbid hmem
    have := (List.mem_filter.mp hmem).2
    rcases hbid with h | h <;> simp [h, pyStr] at this
  · intro b book_id
    simp [bne_eq_false_iff_eq]

/-- Claim C10, witness: on a sequence with a null-id item, a literal
"None"-id item and a normal item, DELETE "None" removes the first two and
keeps the third. -/
theorem C10_witness :
    delete_finished_book
      [⟨none, "t1", "d1"⟩, ⟨some "None", "t2", "d2"⟩, ⟨some "ok", "t3", "d3"⟩] "None" =
      Except.ok (([⟨none, "t1", "d1"⟩, ⟨some "None", "t2", "d2"⟩,
        ⟨some "ok", "t3", "d3"⟩] : List FinishedBook).filter
          (fun b => pyStr b.id != "None")) ∧
    (∀ b ∈ ([⟨none, "t1", "d1"⟩, ⟨some "None", "t2", "d2"⟩,
        ⟨some "ok", "t3", "d3"⟩] : List FinishedBook),
      (b.id = none ∨ b.id = some "None") →
      b ∉ ([⟨none, "t1", "d1"⟩, ⟨some "None", "t2", "d2"⟩,
        ⟨some "ok", "t3", "d3"⟩] : List FinishedBook).filter
          (fun b => pyStr b.id != "None")) ∧
    (∀ (b : FinishedBook) (book_id : String),
      (pyStr b.id != book_id) = false ↔ pyStr b.id = book_id) :=
  C10_delete_string_coercion
    [⟨none, "t1", "d1"⟩, ⟨some "None", "t2", "d2"⟩, ⟨some "ok", "t3", "d3"⟩]
    ⟨⟨none, "t1", "d1"⟩, by decide, rfl⟩
